import Mathlib

/-!
Verification of the skribbl-clone game core.

Shallow embedding of the game logic (`js/game.js`), the host-side guess
message handler (`js/app.js`), and the canvas flood-fill / undo logic
(the unnamed canvas manager file).  JavaScript `Map`s are modelled as
insertion-ordered association lists, JS numbers on the integer-valued
code paths as `Nat`/`Int`, and the floating-point similarity ratio as an
exact rational.  Timers, DOM callbacks and network transmission are
input/output effects outside the state transformations modelled here;
random choices (the drawing-order shuffle) are passed in as explicit
arguments standing for the random outcome.
-/

namespace Skribbl

/-- Peer identifiers are strings (room code or peer id). -/
abbrev PeerId := String

/-- Lookup in an insertion-ordered association list, modelling
`Map.prototype.get`. -/
def mapGet {α : Type} : List (PeerId × α) → PeerId → Option α
  | [], _ => none
  | (k, v) :: rest, key => if k = key then some v else mapGet rest key

/-- Update in an insertion-ordered association list, modelling
`Map.prototype.set`: an existing key keeps its position, a new key is
appended. -/
def mapSet {α : Type} : List (PeerId × α) → PeerId → α → List (PeerId × α)
  | [], key, v => [(key, v)]
  | (k, w) :: rest, key, v =>
      if k = key then (k, v) :: rest else (k, w) :: mapSet rest key v

/-- Player record, from the `players` map of `GameManager`
(`addPlayer` in `js/game.js`). -/
structure Player where
  name : String
  score : Nat
  isHost : Bool
  hasGuessed : Bool
deriving DecidableEq, Repr

/-- Game settings, from the `settings` field of `GameManager`. -/
structure Settings where
  maxPlayers : Nat
  language : String
  drawTime : Nat
  rounds : Nat
  wordCount : Nat
  hints : Nat
  customWords : List String
  customWordsOnly : Bool
deriving DecidableEq, Repr

/-- The `state` string of `GameManager`: one of `'lobby'`, `'wordSelect'`,
`'drawing'`, `'roundEnd'`, `'gameEnd'`. -/
inductive GState where
  | lobby
  | wordSelect
  | drawing
  | roundEnd
  | gameEnd
deriving DecidableEq, Repr

/-- The mutable state of `GameManager` (`js/game.js`), without the timer
handles and observer callbacks (which are I/O, not data). -/
structure Game where
  state : GState
  players : List (PeerId × Player)
  settings : Settings
  currentRound : Nat
  currentDrawerIndex : Nat
  currentWord : String
  revealedLetters : List Nat
  timeRemaining : Nat
  drawingOrder : List PeerId
  roundScores : List (PeerId × Nat)
deriving DecidableEq, Repr

/-- The object returned by `checkGuess`; absent JS fields are modelled by
their falsy defaults. -/
structure GuessResult where
  correct : Bool
  isDrawer : Bool := false
  close : Bool := false
  score : Nat := 0
deriving DecidableEq, Repr

/-- Embedding of `getCurrentDrawerId`: `null` when the drawing order is
empty, and JavaScript's `undefined` on an out-of-range index is likewise
`none`. -/
def getCurrentDrawerId (g : Game) : Option PeerId :=
  if g.drawingOrder.length = 0 then none
  else g.drawingOrder[g.currentDrawerIndex]?

/-- JavaScript `String.prototype.toLowerCase`, modelled character-wise
(ASCII case mapping). -/
def jsToLower (s : String) : String :=
  ⟨s.data.map Char.toLower⟩

/-- JavaScript `String.prototype.toUpperCase`, modelled character-wise
(ASCII case mapping). -/
def jsToUpper (s : String) : String :=
  ⟨s.data.map Char.toUpper⟩

/-- JavaScript `String.prototype.trim` on a character list: strip
whitespace from both ends. -/
def jsTrim (l : List Char) : List Char :=
  ((l.dropWhile Char.isWhitespace).reverse.dropWhile Char.isWhitespace).reverse

/-- JavaScript `String.prototype.trim`. -/
def jsTrimStr (s : String) : String :=
  ⟨jsTrim s.data⟩

/-- Embedding of the time bonus computed in `checkGuess`:
`Math.max(50, Math.floor(500 * (timeRemaining / drawTime)))`.
Natural-number division is exactly the floor of the rational quotient. -/
def timeBonus (timeRemaining drawTime : Nat) : Nat :=
  max 50 (500 * timeRemaining / drawTime)

/-!
Embedding of `calculateSimilarity` (`js/game.js`): a single-row
Levenshtein dynamic program.  The JS inner loop over `j` is `goRow`
(`lastValue` threaded through, `costs[j-1] = lastValue` emitting the new
row, and the final `costs[s2.length] = lastValue` write producing the
last cell); the outer loop over `i` is `levRowsAux`, starting from the
row `costs[j] = j` written by the `i = 0` iteration.
-/

/-- One `i ≥ 1` iteration of the inner loop of `calculateSimilarity`:
walks the characters of `s2` together with the previous row
(`diag = costs[j-1]`, `up = costs[j]`), threading `lastValue`. -/
def goRow (c : Char) : Nat → List Char → List Nat → List Nat
  | last, [], _ => [last]
  | last, _ :: _, [] => [last]
  | last, y :: ys, diag :: rest =>
      last ::
        goRow c
          (if c = y then diag else Nat.min (Nat.min diag last) (rest.headD 0) + 1)
          ys rest

/-- The outer loop of `calculateSimilarity` over the characters of `s1`;
`i` is the current row index (the initial `lastValue` of the row). -/
def levRowsAux (s2 : List Char) (row : List Nat) (i : Nat) : List Char → List Nat
  | [] => row
  | c :: cs => levRowsAux s2 (goRow c i s2 row) (i + 1) cs

/-- The final `costs` row of the dynamic program of `calculateSimilarity`. -/
def levRows (s1 s2 : List Char) : List Nat :=
  levRowsAux s2 (List.range (s2.length + 1)) 1 s1

/-- The value `costs[s2.length]` read at the end of `calculateSimilarity`. -/
def jsLevDist (s1 s2 : List Char) : Nat :=
  (levRows s1 s2).getLastD 0

/-- Embedding of `calculateSimilarity` (`js/game.js`).  The JS float
division is modelled exactly in `ℚ`. -/
def calculateSimilarity (s1 s2 : List Char) : ℚ :=
  let longer := if s1.length > s2.length then s1 else s2
  if longer.length = 0 then 1
  else ((longer.length : ℚ) - (jsLevDist s1 s2 : ℚ)) / (longer.length : ℚ)

/-- Reference recursive Levenshtein distance, used to characterise the
dynamic program; the mismatch case mirrors the exact
`min(min(diag, lastValue), up) + 1` shape of the JS inner loop. -/
def lev : List Char → List Char → Nat
  | [], ys => ys.length
  | xs, [] => xs.length
  | x :: xs, y :: ys =>
      if x = y then lev xs ys
      else Nat.min (Nat.min (lev xs ys) (lev (x :: xs) ys)) (lev xs (y :: ys)) + 1
termination_by xs ys => xs.length + ys.length
decreasing_by
  all_goals simp [List.length_cons]
  all_goals omega

/-- Closed form of one dynamic-program row: the row reached after
consuming `L` (in reverse) from `s1`, walking the remaining characters of
`s2` with `acc` holding the reversed consumed prefix of `s2`. -/
def rowAux (L : List Char) (acc : List Char) : List Char → List Nat
  | [] => [lev L acc]
  | y :: ys => lev L acc :: rowAux L (y :: acc) ys

/-- Embedding of `checkGuess` (`js/game.js`), returning the updated game
state together with the result object.  In-place mutation of the player
objects held by the `players` map is modelled by `mapSet`. -/
def checkGuess (g : Game) (peerId : PeerId) (guess : String) :
    Game × GuessResult :=
  match mapGet g.players peerId with
  | none => (g, { correct := false })
  | some player =>
    if player.hasGuessed then (g, { correct := false })
    else if some peerId = getCurrentDrawerId g then
      (g, { correct := false, isDrawer := true })
    else
      let normalizedGuess := jsTrimStr (jsToLower guess)
      let normalizedWord := jsTrimStr (jsToLower g.currentWord)
      if normalizedGuess = normalizedWord then
        let bonus := timeBonus g.timeRemaining g.settings.drawTime
        let players1 := mapSet g.players peerId
          { player with hasGuessed := true, score := player.score + bonus }
        let roundScores1 := mapSet g.roundScores peerId bonus
        match getCurrentDrawerId g with
        | some drawerId =>
          match mapGet players1 drawerId with
          | some drawer =>
            let players2 := mapSet players1 drawerId
              { drawer with score := drawer.score + 25 }
            let drawerRound := (mapGet roundScores1 drawerId).getD 0
            let roundScores2 := mapSet roundScores1 drawerId (drawerRound + 25)
            ({ g with players := players2, roundScores := roundScores2 },
             { correct := true, score := bonus })
          | none =>
            ({ g with players := players1, roundScores := roundScores1 },
             { correct := true, score := bonus })
        | none =>
          ({ g with players := players1, roundScores := roundScores1 },
           { correct := true, score := bonus })
      else
        let similarity := calculateSimilarity normalizedGuess.data normalizedWord.data
        if similarity ≥ (0.8 : ℚ) then (g, { correct := false, close := true })
        else (g, { correct := false })

/-- Embedding of the host branch of `handleMessage` for a `'guess'`
message (`js/app.js`): the host calls `checkGuess(senderId, message)`
directly, with no check of the current game phase. -/
def handleGuessMessage (g : Game) (senderId : PeerId) (message : String) :
    Game × GuessResult :=
  checkGuess g senderId message

/-- Embedding of the hint-time computation in `selectWord`
(`js/game.js`): `hintInterval = Math.floor(drawTime / (hintCount + 1))`
and `hintTimes = [drawTime - hintInterval * i for i = 1 .. hintCount]`,
listing the remaining-time values at which a hint is revealed. -/
def hintTimes (drawTime hints : Nat) : List Nat :=
  let hintInterval := drawTime / (hints + 1)
  (List.range hints).map (fun i => drawTime - hintInterval * (i + 1))

/-- Embedding of the state updates of `selectWord` (`js/game.js`); the
1 Hz timer it installs is I/O and is not part of the state. -/
def selectWord (g : Game) (word : String) : Game :=
  { g with
    currentWord := jsToLower word
    revealedLetters := []
    state := GState.drawing
    timeRemaining := g.settings.drawTime }

/-- The character loop of `getWordDisplay` (`js/game.js`), tracking the
current index `i`: a space contributes two spaces, a revealed index its
uppercase character, anything else an underscore, each followed by the
separator space appended by `display += ' '`. -/
def displayChars (revealed : List Nat) : List Char → Nat → List Char
  | [], _ => []
  | c :: rest, i =>
      (if c = ' ' then [' ', ' ']
       else if i ∈ revealed then [c.toUpper]
       else ['_']) ++ [' '] ++ displayChars revealed rest (i + 1)

/-- Embedding of `getWordDisplay` (`js/game.js`). -/
def getWordDisplay (currentWord : String) (revealed : List Nat)
    (isDrawer : Bool) : String :=
  if isDrawer then jsToUpper currentWord
  else ⟨jsTrim (displayChars revealed currentWord.data 0)⟩

/-- Embedding of the state updates of `startTurn` (`js/game.js`): enter
word selection, clear the round ledger, reset every `hasGuessed` flag.
The candidate-word draw and the word-select timer are I/O. -/
def startTurn (g : Game) : Game :=
  { g with
    state := GState.wordSelect
    roundScores := []
    players := g.players.map (fun p => (p.1, { p.2 with hasGuessed := false })) }

/-- Result object of `startGame`: `{ error }` or `{ success: true }`. -/
inductive StartResult where
  | error (msg : String)
  | success
deriving DecidableEq, Repr

/-- Entry of the array produced by `getPlayersArray` (`js/game.js`):
the player record spread together with its map key. -/
structure PlayerEntry where
  id : PeerId
  name : String
  score : Nat
  isHost : Bool
  hasGuessed : Bool
deriving DecidableEq, Repr

/-- Embedding of `getPlayersArray` (`js/game.js`): the players map in
insertion order, flattened to entries. -/
def getPlayersArray (g : Game) : List PlayerEntry :=
  g.players.map (fun p =>
    { id := p.1, name := p.2.name, score := p.2.score,
      isHost := p.2.isHost, hasGuessed := p.2.hasGuessed })

/-- The comparator `(a, b) => b.score - a.score` of `endGame`, rendered
as the total preorder "a may come no later than b".  `Array.prototype.sort`
is required to be stable (ECMAScript 2019), which `List.mergeSort`
models. -/
def scoreDescLe (a b : PlayerEntry) : Bool :=
  b.score ≤ a.score

/-- Embedding of the standings computation of `endGame` (`js/game.js`):
stable sort by descending score, then attach `rank = index + 1`. -/
def endGameStandings (g : Game) : List (PlayerEntry × Nat) :=
  ((getPlayersArray g).mergeSort scoreDescLe).enum.map
    (fun p => (p.2, p.1 + 1))

/-- Embedding of `endGame` (`js/game.js`): set the terminal state and
produce the standings handed to `onGameEnd`. -/
def endGame (g : Game) : Game × List (PlayerEntry × Nat) :=
  ({ g with state := GState.gameEnd }, endGameStandings g)

/-- Embedding of `nextTurn` (`js/game.js`). -/
def nextTurn (g : Game) : Game :=
  let g1 := { g with currentDrawerIndex := g.currentDrawerIndex + 1 }
  if g1.currentDrawerIndex ≥ g1.drawingOrder.length then
    let g2 := { g1 with currentDrawerIndex := 0, currentRound := g1.currentRound + 1 }
    if g2.currentRound > g2.settings.rounds then (endGame g2).1
    else startTurn g2
  else startTurn g1

/-- Embedding of `startGame` (`js/game.js`).  The uniformly shuffled
drawing order produced by `shuffleArray` is passed in as `shuffledOrder`
(the random outcome); timer clearing is I/O. -/
def startGame (g : Game) (shuffledOrder : List PeerId)
    (deferTurnStart : Bool) : Game × StartResult :=
  if g.players.length < 2 then
    (g, StartResult.error "Need at least 2 players to start")
  else
    let g1 := { g with
      drawingOrder := shuffledOrder
      currentRound := 1
      currentDrawerIndex := 0
      players := g.players.map (fun p =>
        (p.1, { p.2 with score := 0, hasGuessed := false })) }
    if deferTurnStart then
      ({ g1 with
          state := GState.wordSelect
          roundScores := []
          currentWord := ""
          revealedLetters := []
          timeRemaining := 0 }, StartResult.success)
    else
      (startTurn g1, StartResult.success)

/-- Position of a player id in the drawing order, used only to formalise
the specification's tie-breaking clause (absent ids sort last). -/
def drawingOrderPos (g : Game) (id : PeerId) : Nat :=
  ((g.drawingOrder.indexOf? id).getD g.drawingOrder.length)

/-!
Embedding of the canvas manager (flood fill and undo).  The pixel buffer
`ImageData.data` is a byte array, modelled as a total function from index
to byte value; coordinates are integers (they can step outside the canvas
during exploration and are bounds-checked).
-/

/-- An rgb colour triple as used by `getPixelColor` / `hexToRgb`. -/
structure Rgb where
  r : Nat
  g : Nat
  b : Nat
deriving DecidableEq, Repr

/-- Embedding of `getPixelColor`: read the rgb components at
`(y * width + x) * 4`.  Only called on in-bounds coordinates, where the
index is non-negative. -/
def getPixelColor (data : Nat → Nat) (x y : Int) (width : Nat) : Rgb :=
  let index := ((y * width + x) * 4).toNat
  { r := data index, g := data (index + 1), b := data (index + 2) }

/-- Embedding of `setPixelColor`: write the rgb components and an alpha
of 255 at `(y * width + x) * 4`. -/
def setPixelColor (data : Nat → Nat) (x y : Int) (width : Nat) (color : Rgb) :
    Nat → Nat :=
  let index := ((y * width + x) * 4).toNat
  fun i =>
    if i = index then color.r
    else if i = index + 1 then color.g
    else if i = index + 2 then color.b
    else if i = index + 3 then 255
    else data i

/-- Embedding of `colorsMatch`: component-wise absolute difference at
most `tolerance`. -/
def colorsMatch (a b : Rgb) (tolerance : Nat) : Bool :=
  ((a.r : Int) - b.r).natAbs ≤ tolerance &&
  ((a.g : Int) - b.g).natAbs ≤ tolerance &&
  ((a.b : Int) - b.b).natAbs ≤ tolerance

/-- Hexadecimal digit test, as matched by the character class of the
`hexToRgb` regular expression. -/
def isHexDigit (c : Char) : Bool :=
  c.isDigit || ('a' ≤ c && c ≤ 'f') || ('A' ≤ c && c ≤ 'F')

/-- Value of one hexadecimal digit (`parseInt(-, 16)` on one character). -/
def hexDigitVal (c : Char) : Nat :=
  if c.isDigit then c.toNat - '0'.toNat
  else if 'a' ≤ c && c ≤ 'f' then c.toNat - 'a'.toNat + 10
  else c.toNat - 'A'.toNat + 10

/-- Embedding of `hexToRgb`: the anchored regular expression
`^#?([a-f\d]{2})([a-f\d]{2})([a-f\d]{2})$` (case-insensitive) rendered as
a direct parse of an optional `#` followed by exactly six hexadecimal
digits, with the `{r: 0, g: 0, b: 0}` fallback on no match. -/
def hexToRgb (hex : String) : Rgb :=
  let cs := if hex.data.head? = some '#' then hex.data.tail else hex.data
  match cs with
  | [a, b, c, d, e, f] =>
      if (isHexDigit a && isHexDigit b && isHexDigit c &&
          isHexDigit d && isHexDigit e && isHexDigit f) then
        { r := hexDigitVal a * 16 + hexDigitVal b,
          g := hexDigitVal c * 16 + hexDigitVal d,
          b := hexDigitVal e * 16 + hexDigitVal f }
      else { r := 0, g := 0, b := 0 }
  | _ => { r := 0, g := 0, b := 0 }

/-- The bounds check `cx >= 0 && cx < width && cy >= 0 && cy < height`. -/
def inBounds (width height : Nat) (p : Int × Int) : Prop :=
  0 ≤ p.1 ∧ p.1 < (width : Int) ∧ 0 ≤ p.2 ∧ p.2 < (height : Int)

instance (width height : Nat) (p : Int × Int) :
    Decidable (inBounds width height p) := by
  unfold inBounds; infer_instance

/-- The finite set of in-bounds pixel coordinates, used as the
termination measure of the flood-fill work loop. -/
def grid (width height : Nat) : Finset (Int × Int) :=
  Finset.Icc (0 : Int) ((width : Int) - 1) ×ˢ Finset.Icc (0 : Int) ((height : Int) - 1)

/-- The `while (stack.length > 0)` work loop of `fill`: pop a pixel, skip
it if already visited, out of bounds, or not matching the target colour
within tolerance 32; otherwise mark it visited, recolour it, and push its
four neighbours (in the order JavaScript `push`/`pop` yields them). -/
def floodLoop (width height : Nat) (targetColor fillRgb : Rgb)
    (data : Nat → Nat) (stack : List (Int × Int))
    (visited : Finset (Int × Int)) (hv : visited ⊆ grid width height) :
    (Nat → Nat) × Finset (Int × Int) :=
  match stack with
  | [] => (data, visited)
  | (cx, cy) :: rest =>
    if (cx, cy) ∈ visited then
      floodLoop width height targetColor fillRgb data rest visited hv
    else if hb : ¬ inBounds width height (cx, cy) then
      floodLoop width height targetColor fillRgb data rest visited hv
    else
      let currentColor := getPixelColor data cx cy width
      if colorsMatch currentColor targetColor 32 = false then
        floodLoop width height targetColor fillRgb data rest visited hv
      else
        floodLoop width height targetColor fillRgb
          (setPixelColor data cx cy width fillRgb)
          ((cx, cy - 1) :: (cx, cy + 1) :: (cx - 1, cy) :: (cx + 1, cy) :: rest)
          (insert (cx, cy) visited)
          (by
            intro q hq
            rcases Finset.mem_insert.mp hq with h | h
            · subst h
              obtain ⟨h1, h2, h3, h4⟩ := not_not.mp hb
              simp only [grid, Finset.mem_product, Finset.mem_Icc]
              omega
            · exact hv h)
termination_by ((grid width height).card + 1 - visited.card, stack.length)
decreasing_by
  · apply Prod.Lex.right; simp
  · apply Prod.Lex.right; simp
  · apply Prod.Lex.right; simp
  · apply Prod.Lex.left
    have hnotmem : (cx, cy) ∉ visited := by assumption
    have hcard : (insert (cx, cy) visited).card = visited.card + 1 :=
      Finset.card_insert_of_not_mem hnotmem
    have hsub : (insert (cx, cy) visited) ⊆ grid width height := by
      intro q hq
      rcases Finset.mem_insert.mp hq with h | h
      · subst h
        obtain ⟨h1, h2, h3, h4⟩ := not_not.mp hb
        simp only [grid, Finset.mem_product, Finset.mem_Icc]
        omega
      · exact hv h
    have hle : (insert (cx, cy) visited).card ≤ (grid width height).card :=
      Finset.card_le_card hsub
    omega

/-- Embedding of `fill` (the canvas manager): bounds-check the seed,
convert the fill colour, return unchanged if the seed pixel already
matches the fill colour exactly (tolerance 0), otherwise run the work
loop and commit the buffer.  The device-pixel-ratio scaling of the
incoming coordinates is performed by the caller; `x`, `y` here are the
scaled integer device coordinates.  The function also returns the
`visited` set so that claims about it can be stated. -/
def fill (width height : Nat) (data : Nat → Nat) (x y : Int)
    (fillColor : String) : (Nat → Nat) × Finset (Int × Int) :=
  if x < 0 ∨ x ≥ (width : Int) ∨ y < 0 ∨ y ≥ (height : Int) then (data, ∅)
  else
    let targetColor := getPixelColor data x y width
    let fillRgb := hexToRgb fillColor
    if colorsMatch targetColor fillRgb 0 then (data, ∅)
    else
      floodLoop width height targetColor fillRgb data [(x, y)] ∅
        (Finset.empty_subset _)

/-- Local state of the canvas manager relevant to `undo`: the rendered
raster (abstracted as its data-URL encoding), the undo stack, and the
log of draw-data messages sent to the other participants. -/
structure CanvasState where
  canvas : String
  undoStack : List String
  sent : List String
deriving DecidableEq, Repr

/-- Embedding of `undo` (the canvas manager): return immediately when
the stack is empty; otherwise pop the most recent snapshot, repaint the
canvas from it (the asynchronous image load repaints with the snapshot),
and send an undo message carrying it. -/
def undo (s : CanvasState) : CanvasState :=
  if h : s.undoStack = [] then s
  else
    let imageData := s.undoStack.getLast h
    { canvas := imageData
      undoStack := s.undoStack.dropLast
      sent := s.sent ++ [imageData] }

/-! Association-list lemmas for the `Map` model. -/

theorem mapGet_mapSet_self {α : Type} (m : List (PeerId × α)) (k : PeerId)
    (v : α) : mapGet (mapSet m k v) k = some v := by
  induction m with
  | nil => simp [mapGet, mapSet]
  | cons hd tl ih =>
    obtain ⟨k1, v1⟩ := hd
    by_cases h : k1 = k
    · subst h; simp [mapGet, mapSet]
    · simp [mapGet, mapSet, h, ih]

theorem mapGet_mapSet_ne {α : Type} (m : List (PeerId × α)) (k k' : PeerId)
    (v : α) (h : k ≠ k') : mapGet (mapSet m k v) k' = mapGet m k' := by
  induction m with
  | nil => simp [mapGet, mapSet, h]
  | cons hd tl ih =>
    obtain ⟨k1, v1⟩ := hd
    by_cases h1 : k1 = k
    · subst h1; simp [mapGet, mapSet, h]
    · simp only [mapSet, if_neg h1, mapGet]
      by_cases h2 : k1 = k'
      · simp [h2]
      · simp [h2, ih]

/-- C2: for every call to `nextTurn`, the drawer index is incremented;
when it reaches the length of the drawing order it wraps to 0 and the
round is incremented; and when the incremented round exceeds the
configured total rounds the machine goes to the game-end state, else it
starts a new word-selection turn. -/
theorem nextTurn_cases (g : Game) :
    (g.currentDrawerIndex + 1 < g.drawingOrder.length →
      (nextTurn g).state = GState.wordSelect ∧
      (nextTurn g).currentDrawerIndex = g.currentDrawerIndex + 1 ∧
      (nextTurn g).currentRound = g.currentRound) ∧
    (g.currentDrawerIndex + 1 ≥ g.drawingOrder.length →
      g.currentRound + 1 ≤ g.settings.rounds →
      (nextTurn g).state = GState.wordSelect ∧
      (nextTurn g).currentDrawerIndex = 0 ∧
      (nextTurn g).currentRound = g.currentRound + 1) ∧
    (g.currentDrawerIndex + 1 ≥ g.drawingOrder.length →
      g.currentRound + 1 > g.settings.rounds →
      (nextTurn g).state = GState.gameEnd ∧
      (nextTurn g).currentDrawerIndex = 0 ∧
      (nextTurn g).currentRound = g.currentRound + 1) := by
  refine ⟨fun h1 => ?_, fun h1 h2 => ?_, fun h1 h2 => ?_⟩
  · have hn : ¬ (g.currentDrawerIndex + 1 ≥ g.drawingOrder.length) := by omega
    simp [nextTurn, hn, startTurn]
  · have hn : ¬ (g.currentRound + 1 > g.settings.rounds) := by omega
    simp [nextTurn, h1, hn, startTurn]
  · simp [nextTurn, h1, h2, endGame, startTurn]

/-- Witness for `nextTurn_cases`: a two-player game on its last drawer of
the final round transitions to the game-end state. -/
theorem nextTurn_cases_witness :
    (nextTurn
      { state := GState.roundEnd
        players := [("H", ⟨"Host", 30, true, false⟩), ("B", ⟨"Bea", 50, false, true⟩)]
        settings := ⟨8, "english", 80, 3, 3, 2, [], false⟩
        currentRound := 3
        currentDrawerIndex := 1
        currentWord := "cat"
        revealedLetters := []
        timeRemaining := 0
        drawingOrder := ["H", "B"]
        roundScores := [] }).state = GState.gameEnd ∧
    (nextTurn
      { state := GState.roundEnd
        players := [("H", ⟨"Host", 30, true, false⟩), ("B", ⟨"Bea", 50, false, true⟩)]
        settings := ⟨8, "english", 80, 3, 3, 2, [], false⟩
        currentRound := 3
        currentDrawerIndex := 1
        currentWord := "cat"
        revealedLetters := []
        timeRemaining := 0
        drawingOrder := ["H", "B"]
        roundScores := [] }).currentDrawerIndex = 0 := by
  have h := (nextTurn_cases
    { state := GState.roundEnd
      players := [("H", ⟨"Host", 30, true, false⟩), ("B", ⟨"Bea", 50, false, true⟩)]
      settings := ⟨8, "english", 80, 3, 3, 2, [], false⟩
      currentRound := 3
      currentDrawerIndex := 1
      currentWord := "cat"
      revealedLetters := []
      timeRemaining := 0
      drawingOrder := ["H", "B"]
      roundScores := [] }).2.2 (by decide) (by decide)
  exact ⟨h.1, h.2.1⟩

/-- C4 counterexample: with drawTime 80 and 2 hints the code computes
reveal offsets at remaining time 54 and 28, not the claimed 53 and 27. -/
theorem hintTimes_80_2_counterexample :
    hintTimes 80 2 = [54, 28] ∧
    53 ∉ hintTimes 80 2 ∧ 27 ∉ hintTimes 80 2 := by decide

/-- C4 (amended): the hint reveal offsets are `drawTime - i * floor
(drawTime / (hintCount + 1))` for `i = 1 .. hintCount`, i.e. one reveal
at each interior boundary of the `hintCount + 1` floor-equal segments;
for drawTime 80 and 2 hints the reveals are at remaining time 54 and 28. -/
theorem hintTimes_amended :
    (∀ (d h : Nat), (hintTimes d h).length = h ∧
      ∀ i, i < h → (hintTimes d h).getD i 0 = d - (d / (h + 1)) * (i + 1)) ∧
    hintTimes 80 2 = [54, 28] := by
  refine ⟨fun d h => ⟨by simp [hintTimes], fun i hi => ?_⟩, by decide⟩
  simp [hintTimes, List.getD_eq_getElem?_getD, List.getElem?_map,
    List.getElem?_range, hi]

/-- Witness for `hintTimes_amended`: at drawTime 80, 2 hints, the first
offset is 80 - 26 = 54. -/
theorem hintTimes_amended_witness :
    (hintTimes 80 2).getD 0 0 = 80 - (80 / 3) * 1 :=
  (hintTimes_amended.1 80 2).2 0 (by decide)

/-- C10: calling `undo` with an empty undo stack leaves the canvas
unchanged, sends nothing, and in fact leaves the whole canvas state
unchanged. -/
theorem undo_empty_stack (s : CanvasState) (h : s.undoStack = []) :
    (undo s).canvas = s.canvas ∧ (undo s).sent = s.sent ∧ undo s = s := by
  simp [undo, h]

/-- Witness for `undo_empty_stack` at a concrete canvas state. -/
theorem undo_empty_stack_witness :
    (undo ⟨"raster", [], []⟩).canvas = "raster" ∧
    (undo ⟨"raster", [], []⟩).sent = ([] : List String) ∧
    undo ⟨"raster", [], []⟩ = ⟨"raster", [], []⟩ :=
  undo_empty_stack ⟨"raster", [], []⟩ rfl

theorem colorsMatch_self (a : Rgb) (t : Nat) : colorsMatch a a t = true := by
  simp [colorsMatch]

/-- C9: a flood fill whose seed pixel already has exactly the fill
colour is a no-op: the buffer is returned unmodified and the visited set
is empty. -/
theorem fill_seed_match_noop (width height : Nat) (data : Nat → Nat)
    (x y : Int) (fillColor : String)
    (h : getPixelColor data x y width = hexToRgb fillColor) :
    fill width height data x y fillColor = (data, ∅) := by
  unfold fill
  split
  · rfl
  · simp [h, colorsMatch_self]

/-- Witness for `fill_seed_match_noop`: filling an all-white buffer with
white at the origin of a 2 by 2 canvas changes nothing. -/
theorem fill_seed_match_noop_witness :
    fill 2 2 (fun _ => 255) 0 0 "#ffffff" = ((fun _ => 255), ∅) :=
  fill_seed_match_noop 2 2 (fun _ => 255) 0 0 "#ffffff" (by decide)

/-- C6 counterexample: a lobby with 2 players, custom-words-only enabled
and an empty custom word list starts successfully (state moves to word
selection); the claimed synchronous rejection does not happen. -/
theorem startGame_customWordsOnly_counterexample :
    (startGame
      { state := GState.lobby
        players := [("H", ⟨"Host", 0, true, false⟩), ("B", ⟨"Bea", 0, false, false⟩)]
        settings := ⟨8, "english", 80, 3, 3, 2, [], true⟩
        currentRound := 1
        currentDrawerIndex := 0
        currentWord := ""
        revealedLetters := []
        timeRemaining := 0
        drawingOrder := []
        roundScores := [] } ["B", "H"] true).2 = StartResult.success ∧
    (startGame
      { state := GState.lobby
        players := [("H", ⟨"Host", 0, true, false⟩), ("B", ⟨"Bea", 0, false, false⟩)]
        settings := ⟨8, "english", 80, 3, 3, 2, [], true⟩
        currentRound := 1
        currentDrawerIndex := 0
        currentWord := ""
        revealedLetters := []
        timeRemaining := 0
        drawingOrder := []
        roundScores := [] } ["B", "H"] true).1.state = GState.wordSelect := by
  decide

/-- C6 (amended): starting with fewer than 2 players is rejected
synchronously with an error and leaves the whole game state unchanged;
with at least 2 players `startGame` always succeeds — in particular
custom-words-only with fewer than 10 custom words is not rejected at game
start (that validation lives in the settings dialog, and the word pool
silently falls back to the built-in lists). -/
theorem startGame_validation (g : Game) (order : List PeerId) (defer : Bool) :
    (g.players.length < 2 →
      startGame g order defer = (g, StartResult.error "Need at least 2 players to start")) ∧
    (2 ≤ g.players.length → (startGame g order defer).2 = StartResult.success) := by
  constructor
  · intro h
    simp [startGame, h]
  · intro h
    have hn : ¬ g.players.length < 2 := by omega
    cases defer <;> simp [startGame, hn]

/-- Witness for `startGame_validation`: a single-player lobby is rejected
unchanged. -/
theorem startGame_validation_witness :
    startGame
      { state := GState.lobby
        players := [("H", ⟨"Host", 0, true, false⟩)]
        settings := ⟨8, "english", 80, 3, 3, 2, [], false⟩
        currentRound := 1
        currentDrawerIndex := 0
        currentWord := ""
        revealedLetters := []
        timeRemaining := 0
        drawingOrder := []
        roundScores := [] } ["H"] true =
    ({ state := GState.lobby
       players := [("H", ⟨"Host", 0, true, false⟩)]
       settings := ⟨8, "english", 80, 3, 3, 2, [], false⟩
       currentRound := 1
       currentDrawerIndex := 0
       currentWord := ""
       revealedLetters := []
       timeRemaining := 0
       drawingOrder := []
       roundScores := [] }, StartResult.error "Need at least 2 players to start") :=
  (startGame_validation _ ["H"] true).1 (by decide)

/-- C1: a correct guess (equal to the current word after lower-casing
and trimming) from a non-drawer who has not yet guessed raises the
guesser's score by exactly `max 50 (500 * timeRemaining / drawTime)`
(the floor of the rational quotient), sets the guesser's `hasGuessed`
flag, raises the drawer's score by exactly 25, and reports success with
that bonus. -/
theorem checkGuess_correct_scoring (g : Game) (pid : PeerId) (guess : String)
    (player : Player) (hp : mapGet g.players pid = some player)
    (hng : player.hasGuessed = false)
    (drawerId : PeerId) (hd : getCurrentDrawerId g = some drawerId)
    (hnd : pid ≠ drawerId)
    (drawer : Player) (hdp : mapGet g.players drawerId = some drawer)
    (hmatch : jsTrimStr (jsToLower guess) = jsTrimStr (jsToLower g.currentWord)) :
    mapGet (checkGuess g pid guess).1.players pid =
      some { player with
              hasGuessed := true
              score := player.score +
                max 50 (500 * g.timeRemaining / g.settings.drawTime) } ∧
    mapGet (checkGuess g pid guess).1.players drawerId =
      some { drawer with score := drawer.score + 25 } ∧
    (checkGuess g pid guess).2 =
      { correct := true
        score := max 50 (500 * g.timeRemaining / g.settings.drawTime) } := by
  have hd' : ¬ (some pid = getCurrentDrawerId g) := by
    rw [hd]
    simp [hnd]
  have hdp1 : mapGet (mapSet g.players pid
      { player with
        hasGuessed := true
        score := player.score + timeBonus g.timeRemaining g.settings.drawTime })
      drawerId = some drawer := by
    rw [mapGet_mapSet_ne _ _ _ _ hnd, hdp]
  unfold checkGuess
  rw [hp]
  simp only [hng, Bool.false_eq_true, if_false]
  rw [if_neg hd', if_pos hmatch, hd]
  simp only [hdp1]
  refine ⟨?_, ?_, ?_⟩
  · rw [mapGet_mapSet_ne _ _ _ _ (Ne.symm hnd), mapGet_mapSet_self]
    simp [timeBonus]
  · rw [mapGet_mapSet_self]
  · simp [timeBonus]

/-- Witness for `checkGuess_correct_scoring`: with 40 of 80 seconds
remaining the bonus is 250 — guesser goes from 0 to 250, drawer from 0
to 25. -/
theorem checkGuess_correct_scoring_witness :
    mapGet (checkGuess
      { state := GState.drawing
        players := [("H", ⟨"Host", 0, true, false⟩), ("B", ⟨"Bea", 0, false, false⟩)]
        settings := ⟨8, "english", 80, 3, 3, 2, [], false⟩
        currentRound := 1
        currentDrawerIndex := 0
        currentWord := "cat"
        revealedLetters := []
        timeRemaining := 40
        drawingOrder := ["H", "B"]
        roundScores := [] } "B" "cat").1.players "B" =
      some ⟨"Bea", 250, false, true⟩ ∧
    mapGet (checkGuess
      { state := GState.drawing
        players := [("H", ⟨"Host", 0, true, false⟩), ("B", ⟨"Bea", 0, false, false⟩)]
        settings := ⟨8, "english", 80, 3, 3, 2, [], false⟩
        currentRound := 1
        currentDrawerIndex := 0
        currentWord := "cat"
        revealedLetters := []
        timeRemaining := 40
        drawingOrder := ["H", "B"]
        roundScores := [] } "B" "cat").1.players "H" =
      some ⟨"Host", 25, true, false⟩ := by
  have h := checkGuess_correct_scoring
    { state := GState.drawing
      players := [("H", ⟨"Host", 0, true, false⟩), ("B", ⟨"Bea", 0, false, false⟩)]
      settings := ⟨8, "english", 80, 3, 3, 2, [], false⟩
      currentRound := 1
      currentDrawerIndex := 0
      currentWord := "cat"
      revealedLetters := []
      timeRemaining := 40
      drawingOrder := ["H", "B"]
      roundScores := [] } "B" "cat"
    ⟨"Bea", 0, false, false⟩ (by decide) rfl
    "H" (by decide) (by decide)
    ⟨"Host", 0, true, false⟩ (by decide) (by decide)
  exact ⟨h.1, h.2.1⟩

/-- C3 counterexample: the host guess-message handler performs no phase
check.  In a round-end state (word and players left over from the turn)
a correct guess from a non-drawer who had not yet guessed still scores:
Bea's score rises from 0 to 50 and her flag is set, although the phase
is not Drawing. -/
theorem guess_out_of_phase_counterexample :
    ({ state := GState.roundEnd
       players := [("H", ⟨"Host", 0, true, false⟩), ("B", ⟨"Bea", 0, false, false⟩)]
       settings := ⟨8, "english", 80, 3, 3, 2, [], false⟩
       currentRound := 1
       currentDrawerIndex := 0
       currentWord := "cat"
       revealedLetters := []
       timeRemaining := 0
       drawingOrder := ["H", "B"]
       roundScores := [] : Game }).state ≠ GState.drawing ∧
    mapGet (handleGuessMessage
      { state := GState.roundEnd
        players := [("H", ⟨"Host", 0, true, false⟩), ("B", ⟨"Bea", 0, false, false⟩)]
        settings := ⟨8, "english", 80, 3, 3, 2, [], false⟩
        currentRound := 1
        currentDrawerIndex := 0
        currentWord := "cat"
        revealedLetters := []
        timeRemaining := 0
        drawingOrder := ["H", "B"]
        roundScores := [] } "B" "cat").1.players "B" =
      some ⟨"Bea", 50, false, true⟩ := by
  decide

/-- C3 (amended): a guess is dropped with no state change when the
sender is unknown, has already guessed correctly this turn, or is the
current drawer; the handler does not check the game phase, so a guess
arriving outside the Drawing phase is still evaluated against the
lingering current word. -/
theorem handleGuessMessage_drop (g : Game) (pid : PeerId) (guess : String) :
    (mapGet g.players pid = none →
      handleGuessMessage g pid guess = (g, { correct := false })) ∧
    (∀ p, mapGet g.players pid = some p → p.hasGuessed = true →
      handleGuessMessage g pid guess = (g, { correct := false })) ∧
    (∀ p, mapGet g.players pid = some p → p.hasGuessed = false →
      some pid = getCurrentDrawerId g →
      handleGuessMessage g pid guess = (g, { correct := false, isDrawer := true })) := by
  refine ⟨fun h => ?_, fun p hp hg => ?_, fun p hp hg hd => ?_⟩
  · simp [handleGuessMessage, checkGuess, h]
  · simp [handleGuessMessage, checkGuess, hp, hg]
  · simp [handleGuessMessage, checkGuess, hp, hg, ← hd]

/-- Witness for `handleGuessMessage_drop`: the drawer's own correct
guess is ignored. -/
theorem handleGuessMessage_drop_witness :
    handleGuessMessage
      { state := GState.drawing
        players := [("H", ⟨"Host", 0, true, false⟩), ("B", ⟨"Bea", 0, false, false⟩)]
        settings := ⟨8, "english", 80, 3, 3, 2, [], false⟩
        currentRound := 1
        currentDrawerIndex := 0
        currentWord := "cat"
        revealedLetters := []
        timeRemaining := 40
        drawingOrder := ["H", "B"]
        roundScores := [] } "H" "cat" =
    ({ state := GState.drawing
       players := [("H", ⟨"Host", 0, true, false⟩), ("B", ⟨"Bea", 0, false, false⟩)]
       settings := ⟨8, "english", 80, 3, 3, 2, [], false⟩
       currentRound := 1
       currentDrawerIndex := 0
       currentWord := "cat"
       revealedLetters := []
       timeRemaining := 40
       drawingOrder := ["H", "B"]
       roundScores := [] }, { correct := false, isDrawer := true }) :=
  (handleGuessMessage_drop _ "H" "cat").2.2 ⟨"Host", 0, true, false⟩
    (by decide) rfl (by decide)

/-! Lemmas about the masked word display. -/

theorem mem_displayChars_nil_revealed :
    ∀ (l : List Char) (i : Nat) (c : Char),
      c ∈ displayChars [] l i → c = '_' ∨ c = ' ' := by
  intro l
  induction l with
  | nil => intro i c h; simp [displayChars] at h
  | cons hd tl ih =>
    intro i c h
    by_cases hhd : hd = ' '
    · simp [displayChars, hhd] at h
      rcases h with h | h
      · right; exact h
      · exact ih (i + 1) c h
    · simp [displayChars, hhd] at h
      rcases h with h | h | h
      · left; exact h
      · right; exact h
      · exact ih (i + 1) c h

theorem mem_of_mem_jsTrim {l : List Char} {c : Char} (h : c ∈ jsTrim l) :
    c ∈ l := by
  unfold jsTrim at h
  rw [List.mem_reverse] at h
  have h1 := (List.dropWhile_sublist _).mem h
  rw [List.mem_reverse] at h1
  exact (List.dropWhile_sublist _).mem h1

theorem count_dropWhile_ws (c : Char) (hc : c.isWhitespace = false)
    (l : List Char) :
    (l.dropWhile Char.isWhitespace).count c = l.count c := by
  conv_rhs => rw [← List.takeWhile_append_dropWhile (p := Char.isWhitespace) (l := l)]
  rw [List.count_append]
  have h0 : (l.takeWhile Char.isWhitespace).count c = 0 := by
    rw [List.count_eq_zero]
    intro hmem
    have := List.mem_takeWhile_imp hmem
    rw [hc] at this
    exact Bool.false_ne_true this
  omega

theorem count_jsTrim (c : Char) (hc : c.isWhitespace = false)
    (l : List Char) : (jsTrim l).count c = l.count c := by
  unfold jsTrim
  rw [List.count_reverse, count_dropWhile_ws c hc, List.count_reverse,
    count_dropWhile_ws c hc]

theorem count_displayChars_nil :
    ∀ (l : List Char) (i : Nat),
      (displayChars [] l i).count '_' = l.countP (fun c => c != ' ') := by
  intro l
  induction l with
  | nil => intro i; simp [displayChars]
  | cons hd tl ih =>
    intro i
    by_cases h : hd = ' '
    · simp [displayChars, h, List.count_append, List.countP_cons, ih (i + 1)]
    · simp [displayChars, h, List.count_append, List.countP_cons, ih (i + 1)]

theorem filter_dropWhile_ws (l : List Char) :
    (l.dropWhile Char.isWhitespace).filter (fun c => !c.isWhitespace) =
      l.filter (fun c => !c.isWhitespace) := by
  conv_rhs => rw [← List.takeWhile_append_dropWhile (p := Char.isWhitespace) (l := l)]
  rw [List.filter_append]
  have h0 : (l.takeWhile Char.isWhitespace).filter (fun c => !c.isWhitespace) = [] := by
    rw [List.filter_eq_nil_iff]
    intro a hmem
    have := List.mem_takeWhile_imp hmem
    simp [this]
  rw [h0, List.nil_append]

theorem filter_jsTrim (l : List Char) :
    (jsTrim l).filter (fun c => !c.isWhitespace) =
      l.filter (fun c => !c.isWhitespace) := by
  unfold jsTrim
  rw [List.filter_reverse, filter_dropWhile_ws, List.filter_reverse,
    filter_dropWhile_ws, List.reverse_reverse]

theorem displayChars_filter_full (r : List Nat) :
    ∀ (l : List Char) (i : Nat),
      (∀ j, j < l.length → l.getD j ' ' ≠ ' ' → (i + j) ∈ r) →
      (displayChars r l i).filter (fun c => !c.isWhitespace) =
        (l.map Char.toUpper).filter (fun c => !c.isWhitespace) := by
  intro l
  induction l with
  | nil => intro i _; simp [displayChars]
  | cons hd tl ih =>
    intro i hyp
    have htl : ∀ j, j < tl.length → tl.getD j ' ' ≠ ' ' → (i + 1 + j) ∈ r := by
      intro j hj hne
      have := hyp (j + 1) (by simpa using Nat.succ_lt_succ hj) (by simpa using hne)
      have harith : i + (j + 1) = i + 1 + j := by omega
      rwa [harith] at this
    by_cases h : hd = ' '
    · simp [displayChars, h, List.filter_append, ih (i + 1) htl]
    · have hrev : i ∈ r := by
        have := hyp 0 (by simp) (by simpa using h)
        simpa using this
      simp [displayChars, h, hrev, List.filter_append, List.filter_cons,
        ih (i + 1) htl]

/-- C7 counterexample: masking the word "cat" with every index revealed
for a non-drawer yields the space-separated string "C A T", not the
uppercase word "CAT" the claim asserts. -/
theorem getWordDisplay_full_counterexample :
    getWordDisplay "cat" [0, 1, 2] false = "C A T" ∧
    jsToUpper "cat" = "CAT" ∧
    getWordDisplay "cat" [0, 1, 2] false ≠ jsToUpper "cat" := by
  decide

/-- C7 (amended): word masking is a pure function of (word, revealed
indices, drawer flag).  The drawer sees the full uppercase word.  For a
non-drawer with no revealed index the output consists solely of
underscores and spaces, with exactly one underscore per non-space
character of the word.  With every non-space index revealed the output
is the uppercase letters separated by blanks: discarding whitespace it
equals the uppercase word with whitespace discarded. -/
theorem getWordDisplay_amended :
    (∀ (w : String) (r : List Nat), getWordDisplay w r true = jsToUpper w) ∧
    (∀ w : String,
      (∀ c ∈ (getWordDisplay w [] false).data, c = '_' ∨ c = ' ') ∧
      (getWordDisplay w [] false).data.count '_' =
        w.data.countP (fun c => c != ' ')) ∧
    (∀ (w : String) (r : List Nat),
      (∀ i, i < w.data.length → w.data.getD i ' ' ≠ ' ' → i ∈ r) →
      (getWordDisplay w r false).data.filter (fun c => !c.isWhitespace) =
        (jsToUpper w).data.filter (fun c => !c.isWhitespace)) := by
  refine ⟨fun w r => rfl, fun w => ⟨?_, ?_⟩, fun w r hyp => ?_⟩
  · intro c hc
    exact mem_displayChars_nil_revealed w.data 0 c (mem_of_mem_jsTrim hc)
  · show (jsTrim (displayChars [] w.data 0)).count '_' = _
    rw [count_jsTrim '_' (by decide), count_displayChars_nil]
  · show (jsTrim (displayChars r w.data 0)).filter _ = _
    rw [filter_jsTrim, displayChars_filter_full r w.data 0 (by simpa using hyp)]
    rfl

/-- Witness for `getWordDisplay_amended`: the fully revealed display of
"cat" agrees with the uppercase word once whitespace is discarded. -/
theorem getWordDisplay_amended_witness :
    (getWordDisplay "cat" [0, 1, 2] false).data.filter (fun c => !c.isWhitespace) =
      (jsToUpper "cat").data.filter (fun c => !c.isWhitespace) :=
  getWordDisplay_amended.2.2 "cat" [0, 1, 2] (by decide)

/-! Lemmas about the game-end standings. -/

theorem scoreDescLe_trans : ∀ a b c : PlayerEntry,
    scoreDescLe a b = true → scoreDescLe b c = true → scoreDescLe a c = true := by
  intro a b c hab hbc
  simp only [scoreDescLe, decide_eq_true_eq] at *
  omega

theorem scoreDescLe_total : ∀ a b : PlayerEntry,
    (scoreDescLe a b || scoreDescLe b a) = true := by
  intro a b
  simp only [scoreDescLe, Bool.or_eq_true, decide_eq_true_eq]
  omega

theorem endGame_standings_map_fst (g : Game) :
    (endGame g).2.map Prod.fst = (getPlayersArray g).mergeSort scoreDescLe := by
  show (endGameStandings g).map Prod.fst = _
  unfold endGameStandings
  rw [List.map_map]
  have hcomp : (Prod.fst ∘ fun p : Nat × PlayerEntry => (p.2, p.1 + 1)) = Prod.snd := rfl
  rw [hcomp, List.enum_map_snd]

/-- C5 counterexample: two players with equal score 100, where the
shuffled drawing order lists "B" before "A" but the players map lists
"A" first.  The claim's tie-breaking puts B's entry first; the code
(stable sort on the players array) ranks A's entry first. -/
theorem endGame_tie_order_counterexample :
    (endGame
      { state := GState.roundEnd
        players := [("A", ⟨"Ann", 100, true, false⟩), ("B", ⟨"Bob", 100, false, false⟩)]
        settings := ⟨8, "english", 80, 3, 3, 2, [], false⟩
        currentRound := 3
        currentDrawerIndex := 1
        currentWord := "cat"
        revealedLetters := []
        timeRemaining := 0
        drawingOrder := ["B", "A"]
        roundScores := [] }).2 =
      [(⟨"A", "Ann", 100, true, false⟩, 1), (⟨"B", "Bob", 100, false, false⟩, 2)] ∧
    (⟨"A", "Ann", 100, true, false⟩ : PlayerEntry).score =
      (⟨"B", "Bob", 100, false, false⟩ : PlayerEntry).score ∧
    drawingOrderPos
      { state := GState.roundEnd
        players := [("A", ⟨"Ann", 100, true, false⟩), ("B", ⟨"Bob", 100, false, false⟩)]
        settings := ⟨8, "english", 80, 3, 3, 2, [], false⟩
        currentRound := 3
        currentDrawerIndex := 1
        currentWord := "cat"
        revealedLetters := []
        timeRemaining := 0
        drawingOrder := ["B", "A"]
        roundScores := [] } "B" <
    drawingOrderPos
      { state := GState.roundEnd
        players := [("A", ⟨"Ann", 100, true, false⟩), ("B", ⟨"Bob", 100, false, false⟩)]
        settings := ⟨8, "english", 80, 3, 3, 2, [], false⟩
        currentRound := 3
        currentDrawerIndex := 1
        currentWord := "cat"
        revealedLetters := []
        timeRemaining := 0
        drawingOrder := ["B", "A"]
        roundScores := [] } "A" := by
  refine ⟨?_, by decide, by decide⟩
  show endGameStandings _ = _
  unfold endGameStandings
  rw [List.mergeSort_of_sorted (by decide)]
  rfl

/-- C5 (amended): the game-end standings are a permutation of the
players array sorted by descending score with ranks 1..n attached, and
ties keep the relative order of the players map (join order) — the sort
comparator looks only at scores and `Array.prototype.sort` is stable —
rather than the drawing-order position. -/
theorem endGame_standings_stable (g : Game) :
    ((endGame g).2.map Prod.fst).Perm (getPlayersArray g) ∧
    ((endGame g).2.map Prod.fst).Pairwise (fun a b => b.score ≤ a.score) ∧
    ((endGame g).2.map Prod.snd) = List.range' 1 (getPlayersArray g).length ∧
    (∀ a b : PlayerEntry, b.score ≤ a.score →
      [a, b].Sublist (getPlayersArray g) →
      [a, b].Sublist ((endGame g).2.map Prod.fst)) := by
  refine ⟨?_, ?_, ?_, ?_⟩
  · rw [endGame_standings_map_fst]
    exact List.mergeSort_perm _ _
  · rw [endGame_standings_map_fst]
    exact (List.sorted_mergeSort scoreDescLe_trans scoreDescLe_total _).imp
      (fun h => by simpa [scoreDescLe] using h)
  · show (endGameStandings g).map Prod.snd = _
    unfold endGameStandings
    rw [List.map_map]
    have hcomp : (Prod.snd ∘ fun p : Nat × PlayerEntry => (p.2, p.1 + 1)) =
        ((fun x => x + 1) ∘ Prod.fst) := rfl
    rw [hcomp, ← List.map_map, List.enum_map_fst, List.length_mergeSort,
      List.range'_eq_map_range]
    exact List.map_congr_left (fun a _ => Nat.add_comm a 1)
  · intro a b hle hsub
    rw [endGame_standings_map_fst]
    exact List.pair_sublist_mergeSort scoreDescLe_trans scoreDescLe_total
      (by simpa [scoreDescLe] using hle) hsub

/-- Witness for `endGame_standings_stable`: the tied entries of the
counterexample game keep their players-map order in the standings. -/
theorem endGame_standings_stable_witness :
    [(⟨"A", "Ann", 100, true, false⟩ : PlayerEntry), ⟨"B", "Bob", 100, false, false⟩].Sublist
      ((endGame
        { state := GState.roundEnd
          players := [("A", ⟨"Ann", 100, true, false⟩), ("B", ⟨"Bob", 100, false, false⟩)]
          settings := ⟨8, "english", 80, 3, 3, 2, [], false⟩
          currentRound := 3
          currentDrawerIndex := 1
          currentWord := "cat"
          revealedLetters := []
          timeRemaining := 0
          drawingOrder := ["B", "A"]
          roundScores := [] }).2.map Prod.fst) :=
  (endGame_standings_stable _).2.2.2 _ _ (by decide) (List.Sublist.refl _)

/-! Lemmas characterising the similarity dynamic program. -/

theorem lev_nil_left (ys : List Char) : lev [] ys = ys.length := by
  simp [lev]

theorem lev_nil_right (xs : List Char) : lev xs [] = xs.length := by
  cases xs <;> simp [lev]

theorem lev_cons_cons (x y : Char) (xs ys : List Char) :
    lev (x :: xs) (y :: ys) = if x = y then lev xs ys
      else Nat.min (Nat.min (lev xs ys) (lev (x :: xs) ys)) (lev xs (y :: ys)) + 1 := by
  rw [lev]

theorem lev_self : ∀ xs : List Char, lev xs xs = 0 := by
  intro xs
  induction xs with
  | nil => simp [lev]
  | cons x xs ih => rw [lev_cons_cons]; simp [ih]

theorem lev_comm_aux : ∀ (n : Nat) (xs ys : List Char),
    xs.length + ys.length ≤ n → lev xs ys = lev ys xs := by
  intro n
  induction n with
  | zero =>
    intro xs ys h
    have hx : xs = [] := List.length_eq_zero.mp (by omega)
    have hy : ys = [] := List.length_eq_zero.mp (by omega)
    subst hx; subst hy; rfl
  | succ n ih =>
    intro xs ys h
    cases xs with
    | nil => rw [lev_nil_left, lev_nil_right]
    | cons x xs =>
      cases ys with
      | nil => rw [lev_nil_left, lev_nil_right]
      | cons y ys =>
        simp only [List.length_cons] at h
        rw [lev_cons_cons, lev_cons_cons]
        by_cases hxy : x = y
        · subst hxy
          rw [if_pos rfl, if_pos rfl]
          exact ih xs ys (by omega)
        · rw [if_neg hxy, if_neg (Ne.symm hxy)]
          have h1 : lev xs ys = lev ys xs := ih xs ys (by omega)
          have h2 : lev (x :: xs) ys = lev ys (x :: xs) :=
            ih (x :: xs) ys (by simp only [List.length_cons]; omega)
          have h3 : lev xs (y :: ys) = lev (y :: ys) xs :=
            ih xs (y :: ys) (by simp only [List.length_cons]; omega)
          rw [h1, h2, h3]
          have hmin : ∀ A B C : Nat,
              Nat.min (Nat.min A B) C = Nat.min (Nat.min A C) B := by
            intro A B C
            simp only [Nat.min_def]
            split_ifs <;> omega
          rw [hmin]

theorem lev_comm (xs ys : List Char) : lev xs ys = lev ys xs :=
  lev_comm_aux (xs.length + ys.length) xs ys (Nat.le_refl _)

theorem rowAux_headD (L : List Char) :
    ∀ (s2 acc : List Char), (rowAux L acc s2).headD 0 = lev L acc := by
  intro s2 acc
  cases s2 <;> rfl

theorem goRow_rowAux (c : Char) (L : List Char) :
    ∀ (s2 acc : List Char),
      goRow c (lev (c :: L) acc) s2 (rowAux L acc s2) = rowAux (c :: L) acc s2 := by
  intro s2
  induction s2 with
  | nil => intro acc; rfl
  | cons y ys ih =>
    intro acc
    show goRow c (lev (c :: L) acc) (y :: ys)
      (lev L acc :: rowAux L (y :: acc) ys) = _
    rw [goRow, rowAux_headD, ← lev_cons_cons, ih (y :: acc)]
    rfl

theorem goRow_rowAux_len (c : Char) (L s2 : List Char) :
    goRow c (L.length + 1) s2 (rowAux L [] s2) = rowAux (c :: L) [] s2 := by
  have h := goRow_rowAux c L s2 []
  rw [lev_nil_right] at h
  simpa using h

theorem rowAux_nil :
    ∀ (s2 acc : List Char),
      rowAux [] acc s2 = List.range' acc.length (s2.length + 1) := by
  intro s2
  induction s2 with
  | nil =>
    intro acc
    simp [rowAux, lev_nil_left, List.range'_one]
  | cons y ys ih =>
    intro acc
    show lev [] acc :: rowAux [] (y :: acc) ys = _
    rw [ih (y :: acc), lev_nil_left]
    show _ = List.range' acc.length (ys.length + 1 + 1)
    rw [List.range'_succ]
    simp [List.range'_succ]

theorem levRowsAux_rowAux (s2 : List Char) :
    ∀ (s1 L : List Char),
      levRowsAux s2 (rowAux L [] s2) (L.length + 1) s1 =
        rowAux (s1.reverse ++ L) [] s2 := by
  intro s1
  induction s1 with
  | nil => intro L; simp [levRowsAux]
  | cons c cs ih =>
    intro L
    show levRowsAux s2 (goRow c (L.length + 1) s2 (rowAux L [] s2))
      (L.length + 1 + 1) cs = _
    rw [goRow_rowAux_len]
    have h := ih (c :: L)
    simp only [List.length_cons] at h
    rw [h]
    simp [List.append_assoc]

theorem levRows_eq_rowAux (s1 s2 : List Char) :
    levRows s1 s2 = rowAux s1.reverse [] s2 := by
  unfold levRows
  have h0 : List.range (s2.length + 1) = rowAux [] [] s2 := by
    rw [rowAux_nil]
    simp [List.range_eq_range']
  rw [h0]
  have h := levRowsAux_rowAux s2 s1 []
  simpa using h

theorem rowAux_getLastD (L : List Char) :
    ∀ (s2 acc : List Char) (d : Nat),
      (rowAux L acc s2).getLastD d = lev L (s2.reverse ++ acc) := by
  intro s2
  induction s2 with
  | nil => intro acc d; simp [rowAux]
  | cons y ys ih =>
    intro acc d
    show (lev L acc :: rowAux L (y :: acc) ys).getLastD d = _
    rw [List.getLastD_cons, ih (y :: acc)]
    simp [List.append_assoc]

/-- The dynamic program of `calculateSimilarity` computes the
Levenshtein distance (of the reversed inputs, which has the same value
by symmetry). -/
theorem jsLevDist_eq_lev (s1 s2 : List Char) :
    jsLevDist s1 s2 = lev s1.reverse s2.reverse := by
  unfold jsLevDist
  rw [levRows_eq_rowAux, rowAux_getLastD]
  simp

/-- C8: the guess-similarity function is symmetric and reflexive:
`calculateSimilarity a b = calculateSimilarity b a` for all character
sequences, and `calculateSimilarity a a = 1`. -/
theorem calculateSimilarity_symm_refl :
    (∀ a b : List Char, calculateSimilarity a b = calculateSimilarity b a) ∧
    (∀ a : List Char, calculateSimilarity a a = 1) := by
  constructor
  · intro a b
    have hlen : (if a.length > b.length then a else b).length =
        (if b.length > a.length then b else a).length := by
      split_ifs <;> omega
    have hd : jsLevDist a b = jsLevDist b a := by
      rw [jsLevDist_eq_lev, jsLevDist_eq_lev, lev_comm]
    simp only [calculateSimilarity]
    rw [hlen, hd]
  · intro a
    simp only [calculateSimilarity, ite_self]
    have hdist : jsLevDist a a = 0 := by
      rw [jsLevDist_eq_lev, lev_self]
    rw [hdist]
    by_cases h : a.length = 0
    · simp [h]
    · rw [if_neg h]
      rw [Nat.cast_zero, sub_zero]
      exact div_self (by exact_mod_cast h)

end Skribbl
